import Mathlib

/-
Verification of the frequency-analysis pipeline in src/frequency_count.py
(class FileAnalyzer and its methods). The Python code is shallowly embedded:
strings are Lean strings, Python string primitives are modelled on character
lists so that all definitions compute, the external libraries (fitz, docx,
jieba, the re character classes) enter as explicit oracle parameters, and the
collections.Counter ranking is modelled by an executable stable descending
sort by count.
-/

namespace FreqCount

/-- The Python method str.endswith: case-sensitive suffix match, modelled on
character lists. -/
def endswith (s sfx : String) : Bool :=
  sfx.toList.isSuffixOf s.toList

/-- Dropping whitespace from both ends of a character list; this is the
semantics of the Python method str.strip with no arguments (restricted to the
common whitespace characters). -/
def stripChars (l : List Char) : List Char :=
  ((l.dropWhile Char.isWhitespace).reverse.dropWhile Char.isWhitespace).reverse

/-- The Python method str.strip with no arguments. -/
def pyStrip (s : String) : String :=
  String.mk (stripChars s.toList)

/-- Splitting a character list at every occurrence of a separator character;
adjacent separators produce empty pieces, as in the Python method str.split
with an explicit separator. -/
def splitChar (sep : Char) : List Char → List (List Char)
  | [] => [[]]
  | c :: cs =>
    match splitChar sep cs with
    | [] => [[]]
    | h :: t => if c == sep then [] :: h :: t else (c :: h) :: t

/-- Iterating over an open Python text file yields its lines; a trailing
newline at end of file does not produce an extra empty line. Modelled by
splitting on the newline character and dropping a final empty piece. -/
def pyFileLines (contents : String) : List String :=
  let parts := (splitChar (Char.ofNat 10) contents.toList).map String.mk
  match parts.getLast? with
  | some "" => parts.dropLast
  | _ => parts

/-- One file found on disk by os.walk: its base name and its text contents. -/
structure DiskFile where
  name : String
  contents : String
deriving DecidableEq

/-- Lines 37-45 of src/frequency_count.py: the stopword loader in
FileAnalyzer.__init__. The walked directory is given as none when it is
absent (os.walk then yields nothing) and otherwise as the list of files found
under it. The result lists the strings inserted into the stopword set, in
insertion order: for every file whose name ends in ".txt", every line of the
file, stripped of surrounding whitespace, with no further filtering. -/
def load_stopwords (dir : Option (List DiskFile)) : List String :=
  match dir with
  | none => []
  | some files =>
    (files.filter (fun f => endswith f.name ".txt")).flatMap
      (fun f => (pyFileLines f.contents).map pyStrip)

/-- The analyzer state relevant to the analysis methods: the bound file path
and the loaded stopword set (as the list of inserted elements). -/
structure FileAnalyzer where
  file_path : String
  stopwords : List String

/-- Lines 47-49 of src/frequency_count.py, method _remove_stopwords: keep the
tokens of length strictly greater than one that are not in the stopword
set. -/
def remove_stopwords (self : FileAnalyzer) (text : List String) : List String :=
  text.filter (fun x => decide (1 < x.length) && !(self.stopwords.contains x))

/-- The external segmentation library (jieba), as an oracle: cut is plain
segmentation (jieba.cut), extract_tags is keyword extraction
(jieba.analyse.extract_tags with topK=1000). -/
structure Segmenter where
  cut : String → List String
  extract_tags : String → List String

/-- The Unicode-aware single-character classes of the Python re module, as an
oracle: isWordChar is the class of word characters, isDigitChar the class of
decimal digits, isSpaceChar the class of whitespace. -/
structure CharClasses where
  isWordChar : Char → Bool
  isDigitChar : Char → Bool
  isSpaceChar : Char → Bool

/-- Membership in the regex character range of CJK Unified Ideographs,
U+4E00 to U+9FFF (line 124 of src/frequency_count.py). -/
def isCJK (c : Char) : Bool :=
  decide (0x4e00 ≤ c.toNat) && decide (c.toNat ≤ 0x9fff)

/-- A successful full match of the pattern of one or more consecutive CJK
characters against the whole string: nonempty and all characters in the
range. -/
def cjkFullmatch (w : String) : Bool :=
  !(w.toList.isEmpty) && w.toList.all isCJK

/-- re.findall with a pattern matching exactly one character: every matching
character of the text, as a one-character string, in text order
(lines 130 and 133 of src/frequency_count.py). -/
def findallChar (p : Char → Bool) (text : String) : List String :=
  (text.toList.filter p).map Char.toString

/-- Space-joining a list of strings, the semantics of the Python expression
joining words with a single space (line 117 of src/frequency_count.py). -/
def spaceJoin (ws : List String) : String :=
  String.mk (((ws.map String.toList).intersperse [Char.ofNat 32]).flatten)

/-- Distinct elements of a list in first-seen order, accumulating the already
seen elements; this is the key insertion order of a Python dict, hence of
collections.Counter. -/
def firstSeenAux {α : Type} [DecidableEq α] (seen : List α) : List α → List α
  | [] => []
  | x :: xs =>
    if x ∈ seen then firstSeenAux seen xs
    else x :: firstSeenAux (seen ++ [x]) xs

/-- Distinct elements of a list in first-seen order. -/
def firstSeen {α : Type} [DecidableEq α] (l : List α) : List α :=
  firstSeenAux [] l

/-- Position of the first occurrence of an element in a list (length of the
list when absent). -/
def idxOf {α : Type} [DecidableEq α] (a : α) : List α → Nat
  | [] => 0
  | x :: xs => if x = a then 0 else idxOf a xs + 1

/-- The distinct elements of l, stably sorted by descending occurrence count:
the count buckets are concatenated for counts l.length down to 0, each bucket
keeping first-seen order. Extensionally this is the stable descending sort by
count that Counter.most_common performs, whose documented tie behavior is
that elements with equal counts are ordered in the order first
encountered. -/
def sortByCountDesc {α : Type} [DecidableEq α] (l : List α) : List α :=
  ((List.range (l.length + 1)).reverse).flatMap
    (fun c => (firstSeen l).filter (fun x => decide (l.count x = c)))

/-- Counter(l).most_common(k): the k highest-count elements with their
counts, descending by count, ties in first-encountered order. -/
def most_common {α : Type} [DecidableEq α] (l : List α) (k : Nat) : List (α × Nat) :=
  ((sortByCountDesc l).take k).map (fun x => (x, l.count x))

/-- Lines 115-118 of src/frequency_count.py: plain segmentation of the
extracted text, stopword removal, space-joining, keyword extraction. -/
def keyword_tokens (seg : Segmenter) (self : FileAnalyzer) (text : String) : List String :=
  seg.extract_tags (spaceJoin (remove_stopwords self (seg.cut text)))

/-- Line 127 of src/frequency_count.py: the keyword-extracted tokens whose
entire string matches one or more consecutive CJK characters. -/
def chineseCandidates (seg : Segmenter) (self : FileAnalyzer) (text : String) : List String :=
  (keyword_tokens seg self text).filter cjkFullmatch

/-- Line 130 of src/frequency_count.py: every decimal-digit character of the
raw extracted text, as a one-character string. -/
def numberCandidates (cc : CharClasses) (text : String) : List String :=
  findallChar cc.isDigitChar text

/-- Line 133 of src/frequency_count.py: every character of the raw extracted
text that is neither a word character nor whitespace, as a one-character
string. -/
def specialCandidates (cc : CharClasses) (text : String) : List String :=
  findallChar (fun c => !(cc.isWordChar c) && !(cc.isSpaceChar c)) text

/-- The dictionary returned by analyze_file on line 150 of
src/frequency_count.py: the three tagged top-K lists. -/
structure AnalysisResult where
  chineseWords : List (String × Nat)
  numbers : List (String × Nat)
  specialCharacters : List (String × Nat)
deriving DecidableEq

/-- Lines 115-150 of src/frequency_count.py: the body of analyze_file after
text extraction has succeeded. -/
def analyzeText (seg : Segmenter) (cc : CharClasses) (self : FileAnalyzer)
    (text : String) (top_k_words : Nat) : AnalysisResult :=
  ⟨most_common (chineseCandidates seg self text) top_k_words,
   most_common (numberCandidates cc text) top_k_words,
   most_common (specialCandidates cc text) top_k_words⟩

/-- The message of the ValueError raised on lines 113 and 166 of
src/frequency_count.py. -/
def unsupported_message : String :=
  "Unsupported file format. Only .pdf and .docx are supported."

/-- Lines 96-150 of src/frequency_count.py, method analyze_file: dispatch on
the file extension (raising for any other extension), extract the text, then
classify and rank. The filesystem and the extraction libraries enter as the
two oracles extractPdf and extractDocx mapping a path to the text extracted
from the file at that path. -/
def analyze_file (seg : Segmenter) (cc : CharClasses)
    (extractPdf extractDocx : String → String) (self : FileAnalyzer)
    (top_k_words : Nat) : Except String AnalysisResult :=
  (if endswith self.file_path ".pdf" then Except.ok (extractPdf self.file_path)
   else if endswith self.file_path ".docx" then Except.ok (extractDocx self.file_path)
   else Except.error unsupported_message).map
    (fun text => analyzeText seg cc self text top_k_words)

/-- The punctuation characters of the regex class on line 168 of
src/frequency_count.py (CJK and ASCII punctuation marks). -/
def punctuationChars : List Char :=
  "。，、；：？！「」『』（）【】《》〈〉——……—·～“”‘’.,;:?!\"\x27()[]\x7b\x7d-_=+&@#$%*~/|\\<>^`".toList

/-- Lines 168-172 of src/frequency_count.py: replace every punctuation
character by a space, run plain segmentation, strip every token and keep the
nonempty ones. -/
def strippedTokens (cut : String → List String) (text : String) : List String :=
  let cleaned_text :=
    String.mk (text.toList.map (fun c => if punctuationChars.contains c then Char.ofNat 32 else c))
  ((cut cleaned_text).map pyStrip).filter (fun w => w != "")

/-- Lines 153-174 of src/frequency_count.py, method
count_given_word_frequency: dispatch on the file extension (raising for any
other extension), strip punctuation, segment, count exact matches. The first
component of the pair is the count computed and printed on lines 173-174; the
second is the value the method returns to its caller, and since the body ends
without a return statement that value is Python None. -/
def count_given_word_frequency (cut : String → List String)
    (extractPdf extractDocx : String → String) (self : FileAnalyzer)
    (input_word : String) : Except String (Nat × Option Nat) :=
  (if endswith self.file_path ".pdf" then Except.ok (extractPdf self.file_path)
   else if endswith self.file_path ".docx" then Except.ok (extractDocx self.file_path)
   else Except.error unsupported_message).map
    (fun text => ((strippedTokens cut text).count input_word, none))

/-! ### Helper lemmas about the Counter model -/

theorem mem_firstSeenAux {α : Type} [DecidableEq α] (x : α) (l : List α) :
    ∀ seen : List α, x ∈ firstSeenAux seen l ↔ x ∈ l ∧ x ∉ seen := by
  induction l with
  | nil => intro seen; simp [firstSeenAux]
  | cons y ys ih =>
    intro seen
    by_cases hy : y ∈ seen
    · rw [firstSeenAux, if_pos hy, ih seen, List.mem_cons]
      constructor
      · exact fun h => ⟨Or.inr h.1, h.2⟩
      · rintro ⟨rfl | h1, h2⟩
        · exact absurd hy h2
        · exact ⟨h1, h2⟩
    · rw [firstSeenAux, if_neg hy, List.mem_cons, ih (seen ++ [y]), List.mem_cons]
      constructor
      · rintro (rfl | ⟨h1, h2⟩)
        · exact ⟨Or.inl rfl, hy⟩
        · refine ⟨Or.inr h1, fun hs => h2 ?_⟩
          exact List.mem_append.mpr (Or.inl hs)
      · rintro ⟨rfl | h1, h2⟩
        · exact Or.inl rfl
        · by_cases hxy : x = y
          · exact Or.inl hxy
          · refine Or.inr ⟨h1, fun hs => ?_⟩
            rcases List.mem_append.mp hs with hs | hs
            · exact h2 hs
            · exact hxy (List.mem_singleton.mp hs)

theorem mem_firstSeen {α : Type} [DecidableEq α] {x : α} {l : List α} :
    x ∈ firstSeen l ↔ x ∈ l := by
  rw [firstSeen, mem_firstSeenAux]
  simp

theorem nodup_firstSeenAux {α : Type} [DecidableEq α] (l : List α) :
    ∀ seen : List α, (firstSeenAux seen l).Nodup := by
  induction l with
  | nil => intro seen; simp [firstSeenAux]
  | cons y ys ih =>
    intro seen
    by_cases hy : y ∈ seen
    · rw [firstSeenAux, if_pos hy]; exact ih seen
    · rw [firstSeenAux, if_neg hy]
      refine List.nodup_cons.mpr ⟨fun hmem => ?_, ih (seen ++ [y])⟩
      exact ((mem_firstSeenAux y ys (seen ++ [y])).mp hmem).2
        (List.mem_append.mpr (Or.inr (List.mem_singleton.mpr rfl)))

theorem nodup_firstSeen {α : Type} [DecidableEq α] (l : List α) :
    (firstSeen l).Nodup :=
  nodup_firstSeenAux l []

theorem pairwise_idxOf_of_nodup {α : Type} [DecidableEq α] {l : List α} (h : l.Nodup) :
    l.Pairwise (fun a b => idxOf a l < idxOf b l) := by
  induction l with
  | nil => simp
  | cons x xs ih =>
    rw [List.nodup_cons] at h
    rw [List.pairwise_cons]
    constructor
    · intro b hb
      have hxb : ¬(x = b) := fun e => h.1 (e ▸ hb)
      simp [idxOf, hxb]
    · refine (ih h.2).imp_of_mem ?_
      intro a b ha hb hab
      have hxa : ¬(x = a) := fun e => h.1 (e ▸ ha)
      have hxb : ¬(x = b) := fun e => h.1 (e ▸ hb)
      simpa [idxOf, hxa, hxb] using Nat.succ_lt_succ hab

theorem sortByCountDesc_pairwise {α : Type} [DecidableEq α] (l : List α) :
    (sortByCountDesc l).Pairwise (fun a b =>
      l.count b ≤ l.count a ∧
        (l.count a = l.count b → idxOf a (firstSeen l) < idxOf b (firstSeen l))) := by
  rw [sortByCountDesc, List.flatMap_def, List.pairwise_flatten]
  constructor
  · intro bl hbl
    rw [List.mem_map] at hbl
    obtain ⟨c, _, rfl⟩ := hbl
    have hpw : ((firstSeen l).filter fun x => decide (l.count x = c)).Pairwise
        (fun a b => idxOf a (firstSeen l) < idxOf b (firstSeen l)) :=
      List.Pairwise.sublist (List.filter_sublist (firstSeen l))
        (pairwise_idxOf_of_nodup (nodup_firstSeen l))
    refine hpw.imp_of_mem ?_
    intro a b ha hb hab
    have hca : l.count a = c := of_decide_eq_true (List.mem_filter.mp ha).2
    have hcb : l.count b = c := of_decide_eq_true (List.mem_filter.mp hb).2
    exact ⟨by rw [hca, hcb], fun _ => hab⟩
  · rw [List.pairwise_map]
    have hrange : ((List.range (l.length + 1)).reverse).Pairwise (fun a b => b < a) :=
      List.pairwise_reverse.mpr (List.pairwise_lt_range _)
    refine hrange.imp ?_
    intro c₁ c₂ hlt x hx y hy
    have hcx : l.count x = c₁ := of_decide_eq_true (List.mem_filter.mp hx).2
    have hcy : l.count y = c₂ := of_decide_eq_true (List.mem_filter.mp hy).2
    refine ⟨?_, fun he => ?_⟩
    · rw [hcx, hcy]; exact Nat.le_of_lt hlt
    · rw [hcx, hcy] at he; omega

theorem filter_mem_cons_perm {α : Type} [DecidableEq α] (f : α → Nat) (c : Nat)
    (cs : List Nat) (hc : c ∉ cs) (es : List α) :
    (es.filter fun x => decide (f x ∈ c :: cs)).Perm
      ((es.filter fun x => decide (f x = c)) ++ es.filter fun x => decide (f x ∈ cs)) := by
  induction es with
  | nil => simp
  | cons e es ih =>
    by_cases h1 : f e = c
    · have h2 : f e ∉ cs := h1 ▸ hc
      have hm : f e ∈ c :: cs := List.mem_cons.mpr (Or.inl h1)
      simp only [List.filter_cons, decide_eq_true_eq]
      rw [if_pos hm, if_pos h1, if_neg h2, List.cons_append]
      exact ih.cons e
    · by_cases h2 : f e ∈ cs
      · have hm : f e ∈ c :: cs := List.mem_cons.mpr (Or.inr h2)
        simp only [List.filter_cons, decide_eq_true_eq]
        rw [if_pos hm, if_neg h1, if_pos h2]
        exact (ih.cons e).trans List.perm_middle.symm
      · have hm : f e ∉ c :: cs := by
          rw [List.mem_cons]; rintro (h | h); exact h1 h; exact h2 h
        simp only [List.filter_cons, decide_eq_true_eq]
        rw [if_neg hm, if_neg h1, if_neg h2]
        exact ih

theorem flatMap_buckets_perm {α : Type} [DecidableEq α] (f : α → Nat) (es : List α) :
    ∀ cs : List Nat, cs.Nodup →
      (cs.flatMap fun c => es.filter fun x => decide (f x = c)).Perm
        (es.filter fun x => decide (f x ∈ cs)) := by
  intro cs
  induction cs with
  | nil => intro _; simp
  | cons c cs ih =>
    intro h
    rw [List.nodup_cons] at h
    rw [List.flatMap_cons]
    exact ((ih h.2).append_left _).trans (filter_mem_cons_perm f c cs h.1 es).symm

theorem sortByCountDesc_perm_firstSeen {α : Type} [DecidableEq α] (l : List α) :
    (sortByCountDesc l).Perm (firstSeen l) := by
  rw [sortByCountDesc]
  have hall : ∀ a ∈ firstSeen l,
      decide (l.count a ∈ (List.range (l.length + 1)).reverse) = true := by
    intro a _
    apply decide_eq_true
    rw [List.mem_reverse, List.mem_range]
    exact Nat.lt_succ_of_le (List.count_le_length a l)
  have h := flatMap_buckets_perm (fun x => l.count x) (firstSeen l)
    ((List.range (l.length + 1)).reverse)
    (List.nodup_reverse.mpr (List.nodup_range _))
  rw [List.filter_eq_self.mpr hall] at h
  exact h

theorem mem_most_common {α : Type} [DecidableEq α] {l : List α} {k : Nat} {p : α × Nat}
    (hp : p ∈ most_common l k) :
    p.2 = l.count p.1 ∧ p.1 ∈ firstSeen l ∧ p.1 ∈ l ∧ 0 < p.2 := by
  rw [most_common, List.mem_map] at hp
  obtain ⟨x, hx, rfl⟩ := hp
  have hxS : x ∈ sortByCountDesc l := (List.take_sublist _ _).subset hx
  have hxF : x ∈ firstSeen l := (sortByCountDesc_perm_firstSeen l).mem_iff.mp hxS
  have hxl : x ∈ l := mem_firstSeen.mp hxF
  exact ⟨rfl, hxF, hxl, List.count_pos_iff.mpr hxl⟩

theorem most_common_pairwise {α : Type} [DecidableEq α] (l : List α) (k : Nat) :
    (most_common l k).Pairwise (fun p q =>
      q.2 ≤ p.2 ∧ (p.2 = q.2 → idxOf p.1 (firstSeen l) < idxOf q.1 (firstSeen l))) := by
  rw [most_common, List.pairwise_map]
  exact List.Pairwise.sublist (List.take_sublist _ _) (sortByCountDesc_pairwise l)

theorem most_common_length_le {α : Type} [DecidableEq α] (l : List α) (k : Nat) :
    (most_common l k).length ≤ k := by
  rw [most_common, List.length_map, List.length_take]
  exact Nat.min_le_left _ _

theorem most_common_all_of_le {α : Type} [DecidableEq α] (l : List α) (k : Nat)
    (h : (firstSeen l).length ≤ k) :
    ((most_common l k).map Prod.fst).Perm (firstSeen l) := by
  have hperm := sortByCountDesc_perm_firstSeen l
  have hlen : (sortByCountDesc l).length ≤ k := hperm.length_eq ▸ h
  rw [most_common, List.take_of_length_le hlen]
  have h2 : List.map Prod.fst (List.map (fun x => (x, l.count x)) (sortByCountDesc l))
      = sortByCountDesc l := by
    rw [List.map_map]
    exact List.map_id'' (fun x => rfl) _
  rw [h2]
  exact hperm

/-! ### Small string facts -/

theorem toList_eq_nil_iff (s : String) : s.toList = [] ↔ s = "" := by
  cases s with
  | mk l => simp [String.toList, String.ext_iff]

theorem char_toString_inj {c d : Char} (h : Char.toString c = Char.toString d) : c = d := by
  have h2 : [c] = [d] := congrArg String.toList h
  simpa using h2

theorem cjkFullmatch_iff (w : String) :
    cjkFullmatch w = true ↔ w ≠ "" ∧ ∀ c ∈ w.toList, isCJK c = true := by
  rw [cjkFullmatch, Bool.and_eq_true, List.all_eq_true, Bool.not_eq_true']
  constructor
  · rintro ⟨h1, h2⟩
    refine ⟨fun he => ?_, h2⟩
    subst he
    exact absurd h1 (by decide)
  · rintro ⟨h1, h2⟩
    refine ⟨?_, h2⟩
    cases hEmp : w.toList.isEmpty
    · rfl
    · exact absurd ((toList_eq_nil_iff w).mp (List.isEmpty_iff.mp hEmp)) h1

/-! ### Concrete oracle instances, used to evaluate the theorems on inputs -/

/-- A concrete character-class oracle: ASCII word characters (alphanumeric
or underscore), ASCII digits, ASCII whitespace. -/
def asciiClasses : CharClasses :=
  ⟨fun c => c.isAlphanum || c == Char.ofNat 95, Char.isDigit, Char.isWhitespace⟩

/-- A concrete segmenter oracle whose keyword extraction always yields the
single token 你好. -/
def fixtureSeg : Segmenter :=
  ⟨fun _ => [], fun _ => ["你好"]⟩

/-- Modelled from the spec: the repository does not contain the external
segmentation library (jieba); the spec describes its plain segmentation mode
as returning every token in left-to-right order, found by dictionary
segmentation. On whitespace-separated input whose chunks are single
dictionary words (你好, 世界) plain segmentation returns exactly those
chunks; separator positions surface here as empty strings, which the counting
method strips and discards just as it discards the whitespace tokens the
library emits. -/
def specSegmentCut (s : String) : List String :=
  (splitChar (Char.ofNat 32) s.toList).map String.mk

/-! ### Claim theorems -/

/-- Claim C1 (code evidence): on the scenario document 你好，世界！你好！ with
target 你好, count_given_word_frequency computes and prints the exact-word
count 2 — the number of post-punctuation-stripped, post-segmentation nonempty
tokens equal to the target — but the value it returns to its caller is None,
not that integer: the method body ends at the print statement with no return
statement. -/
theorem count_given_word_scenario :
    count_given_word_frequency specSegmentCut (fun _ => "你好，世界！你好！")
      (fun _ => "") ⟨"a.pdf", []⟩ "你好" = Except.ok (2, none) := rfl

/-- Claim C2: for every path whose extension is neither .pdf nor .docx
(case-sensitive suffix match), both analyze_file and
count_given_word_frequency raise the unsupported-format error, whose message
names .pdf and .docx as the only supported formats; the result does not
depend on the extraction oracles, so the error is raised before any file
contents are read; and for every path ending in .pdf or .docx both methods
succeed, raising no such error. -/
theorem unsupported_format_spec (seg : Segmenter) (cc : CharClasses)
    (cut : String → List String) (p1 d1 p2 d2 : String → String)
    (self : FileAnalyzer) (k : Nat) (w : String)
    (hpdf : endswith self.file_path ".pdf" = false)
    (hdocx : endswith self.file_path ".docx" = false) :
    analyze_file seg cc p1 d1 self k = Except.error unsupported_message
    ∧ count_given_word_frequency cut p1 d1 self w = Except.error unsupported_message
    ∧ analyze_file seg cc p1 d1 self k = analyze_file seg cc p2 d2 self k
    ∧ count_given_word_frequency cut p1 d1 self w
        = count_given_word_frequency cut p2 d2 self w
    ∧ (".pdf".toList <:+: unsupported_message.toList)
    ∧ (".docx".toList <:+: unsupported_message.toList)
    ∧ (∀ path2 : String,
        endswith path2 ".pdf" = true ∨ endswith path2 ".docx" = true →
        (∃ r, analyze_file seg cc p1 d1 ⟨path2, self.stopwords⟩ k = Except.ok r)
        ∧ ∃ n, count_given_word_frequency cut p1 d1 ⟨path2, self.stopwords⟩ w
            = Except.ok n) := by
  refine ⟨?_, ?_, ?_, ?_, by decide, by decide, ?_⟩
  · simp [analyze_file, hpdf, hdocx, Except.map]
  · simp [count_given_word_frequency, hpdf, hdocx, Except.map]
  · simp [analyze_file, hpdf, hdocx, Except.map]
  · simp [count_given_word_frequency, hpdf, hdocx, Except.map]
  · intro path2 hp
    by_cases h : endswith path2 ".pdf" = true
    · refine ⟨⟨analyzeText seg cc ⟨path2, self.stopwords⟩ (p1 path2) k, ?_⟩,
        ⟨((strippedTokens cut (p1 path2)).count w, none), ?_⟩⟩
      · simp [analyze_file, h, Except.map]
      · simp [count_given_word_frequency, h, Except.map]
    · have hd : endswith path2 ".docx" = true := by
        rcases hp with hp | hp
        · exact absurd hp h
        · exact hp
      refine ⟨⟨analyzeText seg cc ⟨path2, self.stopwords⟩ (d1 path2) k, ?_⟩,
        ⟨((strippedTokens cut (d1 path2)).count w, none), ?_⟩⟩
      · simp [analyze_file, h, hd, Except.map]
      · simp [count_given_word_frequency, h, hd, Except.map]

/-- Claim C2 (witness): the path notes.txt raises the unsupported-format
error from both methods. -/
theorem unsupported_format_witness :
    analyze_file fixtureSeg asciiClasses (fun _ => "") (fun _ => "")
      ⟨"notes.txt", []⟩ 10 = Except.error unsupported_message
    ∧ count_given_word_frequency (fun _ => []) (fun _ => "") (fun _ => "")
      ⟨"notes.txt", []⟩ "你好" = Except.error unsupported_message := by
  have h := unsupported_format_spec fixtureSeg asciiClasses (fun _ => [])
    (fun _ => "") (fun _ => "") (fun _ => "") (fun _ => "") ⟨"notes.txt", []⟩ 10 "你好"
    (by decide) (by decide)
  exact ⟨h.1, h.2.1⟩

/-- Claim C3 (counterexample): a stopword directory holding one file a.txt
whose contents are a single space character puts the empty string into the
stopword set — the loader inserts every stripped line without discarding
empty results, refuting that no empty string is ever a member. -/
theorem load_stopwords_empty_member :
    "" ∈ load_stopwords (some [⟨"a.txt", " "⟩]) := by decide

/-- Claim C3 (amended): the stopword loader enumerates the files ending in
.txt, reads each line, trims whitespace, and inserts every trimmed line —
including lines that trim to the empty string, so the empty string is a
member exactly when some .txt file has such a line; when the directory is
absent the loader yields the empty set without raising. -/
theorem load_stopwords_spec (files : List DiskFile) (x : String) :
    load_stopwords none = []
    ∧ (x ∈ load_stopwords (some files) ↔
        ∃ f ∈ files, endswith f.name ".txt" = true ∧
          ∃ line ∈ pyFileLines f.contents, x = pyStrip line) := by
  refine ⟨rfl, ?_⟩
  rw [load_stopwords]
  simp only [List.mem_flatMap, List.mem_filter, List.mem_map]
  constructor
  · rintro ⟨f, ⟨hf, he⟩, line, hl, rfl⟩
    exact ⟨f, hf, he, line, hl, rfl⟩
  · rintro ⟨f, hf, he, line, hl, rfl⟩
    exact ⟨f, ⟨hf, he⟩, line, hl, rfl⟩

/-- Claim C4: the stopword filter keeps exactly the tokens of length
strictly greater than one that are not members of the stopword set; in the
top-K path it is applied to the plain-segmentation output before keyword
extraction, whose CJK-filtered result feeds the Chinese top-K list; and the
exact-word-count path applies no stopword filtering at all — its result does
not depend on the stopword set. -/
theorem remove_stopwords_spec (path : String) (sw toks : List String) (x : String)
    (seg : Segmenter) (cc : CharClasses) (text : String) (k : Nat)
    (cut : String → List String) (p d : String → String) (w : String) :
    (x ∈ remove_stopwords ⟨path, sw⟩ toks ↔ x ∈ toks ∧ 1 < x.length ∧ x ∉ sw)
    ∧ keyword_tokens seg ⟨path, sw⟩ text
        = seg.extract_tags (spaceJoin (remove_stopwords ⟨path, sw⟩ (seg.cut text)))
    ∧ (analyzeText seg cc ⟨path, sw⟩ text k).chineseWords
        = most_common ((keyword_tokens seg ⟨path, sw⟩ text).filter cjkFullmatch) k
    ∧ count_given_word_frequency cut p d ⟨path, sw⟩ w
        = count_given_word_frequency cut p d ⟨path, []⟩ w := by
  refine ⟨?_, rfl, rfl, rfl⟩
  rw [remove_stopwords]
  simp [List.mem_filter, and_assoc]

/-- Claim C5: the Chinese-word candidate list consists exactly of the
keyword-extracted tokens whose entire string is one or more consecutive CJK
characters; the digit candidate list is every individual digit character of
the raw extracted text and the special-character candidate list every
individual character of the raw text that is neither a word character nor
whitespace — one entry per occurrence, not grouped. -/
theorem candidate_lists_spec (seg : Segmenter) (cc : CharClasses)
    (self : FileAnalyzer) (text : String) (w s : String) :
    (w ∈ chineseCandidates seg self text ↔
      w ∈ keyword_tokens seg self text ∧ w ≠ "" ∧ ∀ c ∈ w.toList, isCJK c = true)
    ∧ (s ∈ numberCandidates cc text ↔
        ∃ c ∈ text.toList, cc.isDigitChar c = true ∧ s = Char.toString c)
    ∧ (s ∈ specialCandidates cc text ↔
        ∃ c ∈ text.toList, cc.isWordChar c = false ∧ cc.isSpaceChar c = false
          ∧ s = Char.toString c)
    ∧ (numberCandidates cc text).length = (text.toList.filter cc.isDigitChar).length
    ∧ (specialCandidates cc text).length
        = (text.toList.filter fun c => !(cc.isWordChar c) && !(cc.isSpaceChar c)).length := by
  refine ⟨?_, ?_, ?_, ?_, ?_⟩
  · rw [chineseCandidates]
    simp [List.mem_filter, cjkFullmatch_iff, and_assoc]
  · rw [numberCandidates, findallChar]
    simp only [List.mem_map, List.mem_filter]
    constructor
    · rintro ⟨c, ⟨hc, hd⟩, rfl⟩
      exact ⟨c, hc, hd, rfl⟩
    · rintro ⟨c, hc, hd, rfl⟩
      exact ⟨c, ⟨hc, hd⟩, rfl⟩
  · rw [specialCandidates, findallChar]
    simp only [List.mem_map, List.mem_filter, Bool.and_eq_true, Bool.not_eq_true']
    constructor
    · rintro ⟨c, ⟨hc, hw2, hs2⟩, rfl⟩
      exact ⟨c, hc, hw2, hs2, rfl⟩
    · rintro ⟨c, hc, hw2, hs2, rfl⟩
      exact ⟨c, ⟨hc, hw2, hs2⟩, rfl⟩
  · rw [numberCandidates, findallChar, List.length_map]
  · rw [specialCandidates, findallChar, List.length_map]

/-- Claim C7: the classify-and-rank analysis is deterministic and depends on
the stopword store only through set membership: two runs on the same
extracted text with stopword sets of identical membership yield the same
AnalysisResult. -/
theorem analyzeText_deterministic (seg : Segmenter) (cc : CharClasses)
    (path1 path2 : String) (sw1 sw2 : List String)
    (h : ∀ x : String, x ∈ sw1 ↔ x ∈ sw2) (text : String) (k : Nat) :
    analyzeText seg cc ⟨path1, sw1⟩ text k = analyzeText seg cc ⟨path2, sw2⟩ text k := by
  have hrm : ∀ toks : List String,
      remove_stopwords ⟨path1, sw1⟩ toks = remove_stopwords ⟨path2, sw2⟩ toks := by
    intro toks
    rw [remove_stopwords, remove_stopwords]
    apply List.filter_congr
    intro x _
    have hc : sw1.contains x = sw2.contains x := by
      by_cases hx : x ∈ sw2
      · have h1 : sw1.contains x = true := by simp [(h x).mpr hx]
        have h2 : sw2.contains x = true := by simp [hx]
        rw [h1, h2]
      · have hx1 : x ∉ sw1 := fun hmem => hx ((h x).mp hmem)
        have h1 : sw1.contains x = false := by simp [hx1]
        have h2 : sw2.contains x = false := by simp [hx]
        rw [h1, h2]
    rw [hc]
  simp only [analyzeText, chineseCandidates, keyword_tokens, hrm]

/-- Claim C7 (witness): two stopword lists with the same membership, in
different order and multiplicity, give identical analysis results. -/
theorem analyzeText_deterministic_witness :
    analyzeText fixtureSeg asciiClasses ⟨"a.pdf", ["的", "了"]⟩ "1 你好!" 10
      = analyzeText fixtureSeg asciiClasses ⟨"b.pdf", ["了", "的", "的"]⟩ "1 你好!" 10 :=
  analyzeText_deterministic fixtureSeg asciiClasses "a.pdf" "b.pdf" _ _
    (by intro x; simp [List.mem_cons]; tauto) "1 你好!" 10

/-- Claim C6: for every candidate list and every k, the top-K view has at
most k entries, is sorted by descending count with ties in first-encountered
order (earlier first occurrence comes first), draws its tokens from the
distinct elements of the list, returns all distinct elements when k is at
least their number, and is empty for the empty candidate list rather than an
error. -/
theorem most_common_topK_spec {α : Type} [DecidableEq α] (l : List α) (k : Nat) :
    (most_common l k).length ≤ k
    ∧ (most_common l k).Pairwise (fun p q =>
        q.2 ≤ p.2 ∧ (p.2 = q.2 → idxOf p.1 (firstSeen l) < idxOf q.1 (firstSeen l)))
    ∧ (∀ p ∈ most_common l k, p.1 ∈ firstSeen l)
    ∧ ((firstSeen l).length ≤ k → ((most_common l k).map Prod.fst).Perm (firstSeen l))
    ∧ most_common ([] : List α) k = [] := by
  refine ⟨most_common_length_le l k, most_common_pairwise l k, ?_,
    most_common_all_of_le l k, ?_⟩
  · intro p hp
    exact (mem_most_common hp).2.1
  · have hs : sortByCountDesc ([] : List α) = [] := by
      simp [sortByCountDesc, firstSeen, firstSeenAux]
    rw [most_common, hs]
    simp

/-- Claim C6 (witness): concrete instantiation on the list [b, a, b] with
k = 5, which exceeds the number of distinct elements. -/
theorem most_common_topK_witness :
    (most_common ["b", "a", "b"] 5).length ≤ 5
    ∧ (∀ p ∈ most_common ["b", "a", "b"] 5, p.1 ∈ firstSeen ["b", "a", "b"])
    ∧ ((most_common ["b", "a", "b"] 5).map Prod.fst).Perm (firstSeen ["b", "a", "b"]) :=
  ⟨(most_common_topK_spec ["b", "a", "b"] 5).1,
   (most_common_topK_spec ["b", "a", "b"] 5).2.2.1,
   (most_common_topK_spec ["b", "a", "b"] 5).2.2.2.1 (by decide)⟩

/-- Claim C9: every (token, count) pair in any of the three top-K lists of an
analysis result has a strictly positive count equal to the number of
occurrences of the token in the corresponding candidate list, and the token
occurs in that candidate list. -/
theorem topk_entries_spec (seg : Segmenter) (cc : CharClasses)
    (self : FileAnalyzer) (text : String) (k : Nat) (p : String × Nat) :
    (p ∈ (analyzeText seg cc self text k).chineseWords →
      0 < p.2 ∧ p.2 = (chineseCandidates seg self text).count p.1
        ∧ p.1 ∈ chineseCandidates seg self text)
    ∧ (p ∈ (analyzeText seg cc self text k).numbers →
      0 < p.2 ∧ p.2 = (numberCandidates cc text).count p.1
        ∧ p.1 ∈ numberCandidates cc text)
    ∧ (p ∈ (analyzeText seg cc self text k).specialCharacters →
      0 < p.2 ∧ p.2 = (specialCandidates cc text).count p.1
        ∧ p.1 ∈ specialCandidates cc text) := by
  refine ⟨fun hp => ?_, fun hp => ?_, fun hp => ?_⟩
  all_goals
    obtain ⟨h1, _, h3, h4⟩ := mem_most_common hp
    exact ⟨h4, h1, h3⟩

/-- Claim C9 (witness): concrete entries of the three lists for the document
text a 1 ! with one keyword token 你好. -/
theorem topk_entries_witness :
    (0 < 1 ∧ 1 = (chineseCandidates fixtureSeg ⟨"a.pdf", []⟩ "a 1 !").count "你好"
      ∧ "你好" ∈ chineseCandidates fixtureSeg ⟨"a.pdf", []⟩ "a 1 !")
    ∧ (0 < 1 ∧ 1 = (numberCandidates asciiClasses "a 1 !").count "1"
      ∧ "1" ∈ numberCandidates asciiClasses "a 1 !")
    ∧ (0 < 1 ∧ 1 = (specialCandidates asciiClasses "a 1 !").count "!"
      ∧ "!" ∈ specialCandidates asciiClasses "a 1 !") :=
  ⟨(topk_entries_spec fixtureSeg asciiClasses ⟨"a.pdf", []⟩ "a 1 !" 1 ("你好", 1)).1
      (by decide),
   (topk_entries_spec fixtureSeg asciiClasses ⟨"a.pdf", []⟩ "a 1 !" 1 ("1", 1)).2.1
      (by decide),
   (topk_entries_spec fixtureSeg asciiClasses ⟨"a.pdf", []⟩ "a 1 !" 1 ("!", 1)).2.2
      (by decide)⟩

/-- Claim C10: assuming every digit character is a word character (true of
the re module classes the code uses), every token of the Numbers top-K list
is a single digit character, every token of the Special Characters top-K
list is a single character that is neither a word character nor whitespace,
and consequently the two lists share no token. -/
theorem numbers_special_disjoint (cc : CharClasses)
    (hdw : ∀ c : Char, cc.isDigitChar c = true → cc.isWordChar c = true)
    (seg : Segmenter) (self : FileAnalyzer) (text : String) (k : Nat)
    (p q : String × Nat) :
    (p ∈ (analyzeText seg cc self text k).numbers →
      p.1.length = 1 ∧ ∃ c : Char, cc.isDigitChar c = true ∧ p.1 = Char.toString c)
    ∧ (q ∈ (analyzeText seg cc self text k).specialCharacters →
      q.1.length = 1 ∧ ∃ c : Char, cc.isWordChar c = false ∧ cc.isSpaceChar c = false
        ∧ q.1 = Char.toString c)
    ∧ (p ∈ (analyzeText seg cc self text k).numbers →
        q ∈ (analyzeText seg cc self text k).specialCharacters → p.1 ≠ q.1) := by
  have hnum : p ∈ (analyzeText seg cc self text k).numbers →
      ∃ c : Char, cc.isDigitChar c = true ∧ p.1 = Char.toString c := by
    intro hp
    have h3 := (mem_most_common hp).2.2.1
    rw [numberCandidates, findallChar, List.mem_map] at h3
    obtain ⟨c, hc, hcp⟩ := h3
    exact ⟨c, (List.mem_filter.mp hc).2, hcp.symm⟩
  have hsp : q ∈ (analyzeText seg cc self text k).specialCharacters →
      ∃ c : Char, cc.isWordChar c = false ∧ cc.isSpaceChar c = false
        ∧ q.1 = Char.toString c := by
    intro hq
    have h3 := (mem_most_common hq).2.2.1
    rw [specialCandidates, findallChar, List.mem_map] at h3
    obtain ⟨c, hc, hcp⟩ := h3
    have hb := (List.mem_filter.mp hc).2
    rw [Bool.and_eq_true, Bool.not_eq_true', Bool.not_eq_true'] at hb
    exact ⟨c, hb.1, hb.2, hcp.symm⟩
  refine ⟨fun hp => ?_, fun hq => ?_, fun hp hq => ?_⟩
  · obtain ⟨c, hd2, he⟩ := hnum hp
    exact ⟨by rw [he]; rfl, c, hd2, he⟩
  · obtain ⟨c, h1, h2, he⟩ := hsp hq
    exact ⟨by rw [he]; rfl, c, h1, h2, he⟩
  · obtain ⟨c, hd2, he⟩ := hnum hp
    obtain ⟨c2, h1, h2, he2⟩ := hsp hq
    intro heq
    have hcc : c = c2 := char_toString_inj (by rw [← he, ← he2]; exact heq)
    have hw2 : cc.isWordChar c = true := hdw c hd2
    rw [hcc] at hw2
    rw [hw2] at h1
    exact absurd h1 (by decide)

/-- Claim C10 (witness): for the document text 1 ! the Numbers list holds the
single-character token 1, the Special Characters list the single-character
token !, and the two tokens differ. -/
theorem numbers_special_disjoint_witness :
    ("1" : String).length = 1
    ∧ ("!" : String).length = 1
    ∧ ("1" : String) ≠ "!" := by
  have h := numbers_special_disjoint asciiClasses
    (fun c hc => by
      simp only [asciiClasses] at hc ⊢
      simp [Char.isAlphanum, hc])
    fixtureSeg ⟨"a.pdf", []⟩ "1 !" 1 ("1", 1) ("!", 1)
  exact ⟨(h.1 (by decide)).1, (h.2.1 (by decide)).1, h.2.2 (by decide) (by decide)⟩

end FreqCount
